import Mathlib

/-!
Verification of the DFTB+ calculator adapter (`ase/calculators/dftb.py` and
`ase/io/dftb.py`): the input-file renderer (`Dftb.write_dftb_in`) and the
results-file parsers (`Dftb.read_results`, `Dftb.read_forces`,
`Dftb.read_charges_and_energy`, `Dftb.read_fermi_levels`,
`Dftb.read_eigenvalues`, `read_max_angular_momentum`).

Python strings are embedded as `List Char` (`PyStr`).  File lines are the
strings returned by `readlines()`; a trailing newline may or may not be kept
by a caller of these definitions, because every consumer modelled here
(`split()`, `strip()`, `float()`, `int()`, substring tests on markers without
newlines) is insensitive to it.  Python numbers are embedded as `ℚ`;
exceptions are embedded as the `PyErr` error type of an `Except` result.
-/

/-- A Python string: a list of characters (code points). -/
abbrev PyStr := List Char

/-- Coerce a Lean string literal to the `PyStr` embedding. -/
def pys (s : String) : PyStr := s.data

/-- The Python exceptions that the embedded code can raise. -/
inductive PyErr where
  /-- `FileNotFoundError` from `open` on a missing path. -/
  | notFound (path : String)
  /-- `IndexError` from an out-of-range subscript. -/
  | indexError
  /-- `ValueError`, e.g. from `float()` / `int()` on a bad literal. -/
  | valueError (msg : String)
  /-- `TypeError`, e.g. from indexing a string with `None`. -/
  | typeError (msg : String)
  /-- `UnboundLocalError`: a local variable referenced before assignment. -/
  | unboundLocal (name : String)
  /-- `RuntimeError(msg)` raised explicitly by the parser methods. -/
  | runtimeError (msg : String)
deriving DecidableEq

deriving instance DecidableEq for Except

/-- Python whitespace, as used by `str.split()` and `str.strip()`. -/
def isWs (c : Char) : Bool :=
  c.toNat = 32 || c.toNat = 9 || c.toNat = 10 || c.toNat = 13 ||
  c.toNat = 12 || c.toNat = 11

/-- ASCII decimal digit test. -/
def isDigitCh (c : Char) : Bool := 48 ≤ c.toNat && c.toNat ≤ 57

/-- Numeric value of a digit string (most significant first). -/
def natOfDigits (ds : List Char) : Nat :=
  ds.foldl (fun n c => 10 * n + (c.toNat - 48)) 0

/-- `str.strip()`: remove leading and trailing whitespace. -/
def pyStrip (s : PyStr) : PyStr :=
  ((s.dropWhile isWs).reverse.dropWhile isWs).reverse

/-- `key.rstrip('_')`: remove all trailing underscores. -/
def rstripU (s : PyStr) : PyStr :=
  (s.reverse.dropWhile (fun c => c = '_')).reverse

/-- `s.rsplit('_')[-1]`: the text after the last underscore (whole string
if there is none). -/
def lastSeg (s : PyStr) : PyStr :=
  (s.reverse.takeWhile (fun c => c ≠ '_')).reverse

/-- `str.replace(old, new)` for single characters. -/
def replaceChar (old new : Char) (s : PyStr) : PyStr :=
  s.map (fun c => if c = old then new else c)

/-- Auxiliary for `splitWs`: accumulates the current word (reversed). -/
def splitWsAux : PyStr → PyStr → List PyStr
  | [], acc => if acc.isEmpty then [] else [acc.reverse]
  | c :: rest, acc =>
    if isWs c then
      if acc.isEmpty then splitWsAux rest []
      else acc.reverse :: splitWsAux rest []
    else splitWsAux rest (c :: acc)

/-- `str.split()` with no argument: split on whitespace runs, no empties. -/
def splitWs (s : PyStr) : List PyStr := splitWsAux s []

/-- `str.split(sep)` for a single-character separator: keeps empty pieces,
always returns at least one piece. -/
def splitOnChar (sep : Char) (s : PyStr) : List PyStr :=
  s.foldr
    (fun c acc =>
      if c = sep then [] :: acc
      else
        match acc with
        | [] => [[c]]
        | w :: ws => (c :: w) :: ws)
    [[]]

/-- Python `needle in hay` substring test. -/
def containsSub (needle : PyStr) : PyStr → Bool
  | [] => needle.isEmpty
  | c :: rest => needle.isPrefixOf (c :: rest) || containsSub needle rest

/-- `key.endswith('_')`. -/
def endsWithU (s : PyStr) : Bool :=
  match s.reverse with
  | '_' :: _ => true
  | _ => false

/-- Python `hay.count(needle)`: non-overlapping occurrences, scanning left
to right. -/
def countOcc (needle : PyStr) : PyStr → Nat
  | [] => 0
  | c :: rest =>
    if needle.isPrefixOf (c :: rest) then
      1 + countOcc needle (rest.drop (needle.length - 1))
    else countOcc needle rest
termination_by s => s.length
decreasing_by
  · simp only [List.length_drop, List.length_cons]; omega
  · simp only [List.length_cons]; omega

/-- Python `float(token)` on an already-whitespace-free token, as an exact
rational: optional sign, decimal digits with optional fraction, optional
decimal exponent.  `none` models `ValueError`. -/
def parseFloat (s : PyStr) : Option ℚ :=
  let (sgn, s1) : ℚ × PyStr :=
    match s with
    | '-' :: r => (-1, r)
    | '+' :: r => (1, r)
    | _ => (1, s)
  let ip := s1.takeWhile isDigitCh
  let s2 := s1.dropWhile isDigitCh
  let (fp, s3) : PyStr × PyStr :=
    match s2 with
    | '.' :: r => (r.takeWhile isDigitCh, r.dropWhile isDigitCh)
    | _ => ([], s2)
  if ip.isEmpty && fp.isEmpty then none
  else
    let mant : ℚ := sgn * ((natOfDigits ip : ℚ) +
      (natOfDigits fp : ℚ) / ((10 : ℚ) ^ fp.length))
    match s3 with
    | [] => some mant
    | e :: r =>
      if e = 'e' || e = 'E' then
        let (esgn, r1) : ℤ × PyStr :=
          match r with
          | '-' :: rr => (-1, rr)
          | '+' :: rr => (1, rr)
          | _ => (1, r)
        let ed := r1.takeWhile isDigitCh
        let rest := r1.dropWhile isDigitCh
        if ed.isEmpty || !rest.isEmpty then none
        else some (mant * (10 : ℚ) ^ (esgn * (natOfDigits ed : ℤ)))
      else none

/-- Python `int(piece)`: strips whitespace, then optional sign and digits.
`none` models `ValueError`. -/
def parseInt (s : PyStr) : Option ℤ :=
  let t := pyStrip s
  let (sgn, t1) : ℤ × PyStr :=
    match t with
    | '-' :: r => (-1, r)
    | '+' :: r => (1, r)
    | _ => (1, t)
  if t1.isEmpty || !t1.all isDigitCh then none
  else some (sgn * (natOfDigits t1 : ℤ))

/-- Unit-conversion constant `Hartree` (eV per Hartree).  Modelled from the
spec: the "fixed multiplicative constant" / "energy unit constant" imported
from the toolkit's units module, which is outside the excerpted sources.
Its exact value is irrelevant to every claim below. -/
def Hartree : ℚ := 27211386245988 / 1000000000000

/-- Unit-conversion constant `Bohr` (Angstrom per Bohr).  Modelled from the
spec, as for `Hartree`; the exact value is irrelevant to the claims. -/
def Bohr : ℚ := 52917721067 / 100000000000

/-- The left-brace character (written by the renderer as part of
block-opening lines). -/
def lbraceC : Char := Char.ofNat 123

/-- The right-brace character (the renderer's block-closing lines). -/
def rbraceC : Char := Char.ofNat 125

/-- `n` spaces: `n * myspace` with `myspace = ' '`. -/
def spaces (n : Nat) : PyStr := List.replicate n ' '

/-- `current_depth`/`previous_depth` of `Dftb.write_dftb_in`
(dftb.py:181-182): `key.rstrip('_').count('_')`. -/
def currentDepth (key : PyStr) : Nat := (rstripU key).count '_'

/-- Lexicographic (code-point) strict order on Python strings, as used by
`sorted(params.items())` on the keys. -/
def lexLt : PyStr → PyStr → Bool
  | [], [] => false
  | [], _ :: _ => true
  | _ :: _, [] => false
  | a :: as, b :: bs =>
    if a.toNat < b.toNat then true
    else if b.toNat < a.toNat then false
    else lexLt as bs

/-- Insert one key-value pair into a key-sorted list (insertion sort step). -/
def insertPair (p : PyStr × PyStr) : List (PyStr × PyStr) → List (PyStr × PyStr)
  | [] => [p]
  | q :: qs => if lexLt p.1 q.1 then p :: q :: qs else q :: insertPair p qs

/-- `sorted(params.items())`: the parameter pairs in ascending key order. -/
def sortPairs (ps : List (PyStr × PyStr)) : List (PyStr × PyStr) :=
  ps.foldr insertPair []

/-- The closing chunks written between two consecutive keys
(dftb.py:183-185): `for b in reversed(range(previous_depth - current_depth)):
write(3*(1+b)*' ' + '} \n')`.  The argument is `previous_depth -
current_depth` (zero when the depth does not drop, like Python's empty
`range`). -/
def closeChunks : Nat → List PyStr
  | 0 => []
  | b + 1 => (spaces (3 * (1 + b)) ++ pys ("\x7d \n")) :: closeChunks b

/-- The closing chunks written after the last key (dftb.py:207-209):
`for b in reversed(range(current_depth)): write(3*b*' ' + '} \n')`. -/
def finalCloses : Nat → List PyStr
  | 0 => []
  | b + 1 => (spaces (3 * b) ++ pys ("\x7d \n")) :: finalCloses b

/-- The chunk written for one key after its indentation (dftb.py:187-193):
a block opener for keys ending in `'_'`, a bare value for `'_empty'` keys,
and `name = value` otherwise. -/
def bodyChunk (key value : PyStr) : PyStr :=
  if endsWithU key then
    lastSeg (rstripU key) ++ pys (" = ") ++ value ++ pys ("\x7b \n")
  else if countOcc (pys ("_empty")) key = 1 then
    value ++ pys (" \n")
  else
    lastSeg key ++ pys (" = ") ++ value ++ pys (" \n")

/-- Decimal rendering of a natural number, for `str(len(...))`. -/
def natDigits : Nat → PyStr
  | 0 => []
  | n + 1 => natDigits ((n + 1) / 10) ++ [Char.ofNat (48 + (n + 1) % 10)]
decreasing_by omega

/-- `str(n)` for a natural number. -/
def natToStr (n : Nat) : PyStr := if n = 0 then pys ("0") else natDigits n

/-- The point-charge block written after a value containing `'DFTB'` when a
`pcpot` is attached (dftb.py:194-205); `records` is
`len(self.pcpot.mmcharges)`. -/
def pcChunks (records : Nat) : List PyStr :=
  [pys ("   ElectricField = \x7b \n"),
   pys ("      PointCharges = \x7b \n"),
   pys ("         CoordsAndCharges [Angstrom] = DirectRead \x7b \n"),
   pys ("            Records = ") ++ natToStr records ++ pys (" \n"),
   pys ("            File = \"dftb_external_charges.dat\" \n"),
   pys ("         \x7d \n"),
   pys ("      \x7d \n"),
   pys ("   \x7d \n")]

/-- The main keyword loop of `Dftb.write_dftb_in` (dftb.py:178-206), as the
list of chunks passed to `outfile.write`.  `prevDepth` carries
`previous_depth`; values are their `str()` renderings. -/
def mainChunks (pc : Option Nat) : Nat → List (PyStr × PyStr) → List PyStr
  | _, [] => []
  | prevDepth, (key, value) :: rest =>
    closeChunks (prevDepth - currentDepth key) ++
    (spaces (3 * currentDepth key) ::
      bodyChunk key value ::
      (if pc.isSome && containsSub (pys ("DFTB")) value then
        pcChunks (pc.getD 0) else [])) ++
    mainChunks pc (currentDepth key) rest

/-- The fixed header written first (dftb.py:156-159). -/
def headerChunks : List PyStr :=
  [pys ("Geometry = GenFormat \x7b \n"),
   pys ("    <<< \"geo_end.gen\" \n"),
   pys ("\x7d \n"),
   pys (" \n")]

/-- The fixed trailer written last (dftb.py:211-216). -/
def trailerChunks : List PyStr :=
  [pys ("Options \x7b \n"),
   pys ("   WriteResultsTag = Yes  \n"),
   pys ("\x7d \n"),
   pys ("ParserOptions \x7b \n"),
   pys ("   IgnoreUnprocessedNodes = Yes  \n"),
   pys ("\x7d \n")]

/-- `Dftb.write_dftb_in` (dftb.py:150-218) on the finished parameter set:
the sequence of chunks written to the file.  `pc` is `some (len
mmcharges)` when `self.pcpot` is attached.  For an empty parameter set the
Python code raises `NameError` at line 207 (`key` was never bound), so the
result is `none` there. -/
def write_dftb_in (params : List (PyStr × PyStr)) (pc : Option Nat) :
    Option (List PyStr) :=
  let sorted := sortPairs params
  match sorted.getLast? with
  | none => none
  | some (lastKey, _) =>
    some (headerChunks ++
      mainChunks pc (currentDepth (pys ("dummy_"))) sorted ++
      finalCloses (currentDepth lastKey) ++
      trailerChunks)

/-- Number of occurrences of a character in a whole document (chunk list). -/
def countCharIn (c : Char) (chunks : List PyStr) : Nat :=
  (chunks.map (List.count c)).sum

/-- The spec's segment count: "number of underscore-separated segments after
stripping a trailing underscore".  Stated from the spec's words, for
comparison with the source's `currentDepth`. -/
def specSegmentCount (key : PyStr) : Nat :=
  (splitOnChar '_' (rstripU key)).length

/-- Number of block-opener keys (keys ending in `'_'`) in a pair list. -/
def numOpeners (ps : List (PyStr × PyStr)) : Nat :=
  (ps.filter (fun p => endsWithU p.1)).length

/-- Total depth increase along consecutive keys, starting from `prev`. -/
def depthRises : Nat → List (PyStr × PyStr) → Nat
  | _, [] => 0
  | prev, (k, _) :: rest =>
    (currentDepth k - prev) + depthRises (currentDepth k) rest

/-- Total of the inter-key closing chunks emitted, starting from `prev`. -/
def depthCloses : Nat → List (PyStr × PyStr) → Nat
  | _, [] => 0
  | prev, (k, _) :: rest =>
    (prev - currentDepth k) + depthCloses (currentDepth k) rest

/-- Depth of the last key of the list (`prev` if the list is empty). -/
def lastDepth : Nat → List (PyStr × PyStr) → Nat
  | prev, [] => prev
  | _, (k, _) :: rest => lastDepth (currentDepth k) rest

/-- Scan of the occupation slice in `read_max_angular_momentum`
(dftb.py:510-513): `for f in occs: if f > 0.0: return l; l -= 1`. -/
def scanDown : List ℚ → Nat → Option Nat
  | [], _ => none
  | f :: fs, l => if 0 < f then some l else scanDown fs (l - 1)

/-- `read_max_angular_momentum(path)` (dftb.py:489-513) on the lines of the
`.skf` file.  `fd.readline()` past the end of the file returns `''`
(embedded: a missing line is `[]`); `line[0]` on an empty first line raises
`IndexError`.  Falling off the end of the occupation scan is Python's
implicit `return None`. -/
def read_max_angular_momentum (fileLines : List PyStr) :
    Except PyErr (Option Nat) :=
  let line0 := (fileLines.get? 0).getD []
  match line0 with
  | [] => .error .indexError
  | c :: _ =>
    let ext := c = '@'
    let l0 : Nat := if ext then 3 else 2
    let pos : Nat := if ext then 9 else 7
    let occIdx : Nat := if ext then 2 else 1
    let line := (fileLines.get? occIdx).getD []
    let toks := splitWs (replaceChar ',' ' ' line)
    match ((toks.drop pos).take (l0 + 1)).mapM parseFloat with
    | none => .error (.valueError "could not convert string to float")
    | some occs => .ok (scanDown occs l0)

/-- The per-species default filling of `Dftb.write_dftb_in`
(dftb.py:170-175): `l = read_max_angular_momentum(path)` followed by
`'"{}"'.format('spdf'[l])`.  When `l` is `None`, `'spdf'[None]`
raises `TypeError`; when `l` is in range it yields the quoted letter. -/
def angularDefault (skfLines : List PyStr) : Except PyErr PyStr := do
  let l ← read_max_angular_momentum skfLines
  match l with
  | none => .error (.typeError
      "string indices must be integers, not NoneType")
  | some n =>
    match (pys ("spdf")).get? n with
    | none => .error .indexError
    | some ch => .ok ('\"' :: ch :: '\"' :: [])

/-- The energy scan of `Dftb.read_charges_and_energy` (dftb.py:325-328):
first line whose stripped text starts with `'Total energy:'`; the third
token is parsed and scaled.  `.ok none` means the loop fell through and the
local `energy` was never assigned. -/
def scanEnergy : List PyStr → Except PyErr (Option ℚ)
  | [] => .ok none
  | l :: rest =>
    if (pys ("Total energy:")).isPrefixOf (pyStrip l) then
      match (splitWs l).get? 2 with
      | none => .error .indexError
      | some t =>
        match parseFloat t with
        | none => .error (.valueError "could not convert string to float")
        | some e => .ok (some (e * Hartree))
    else scanEnergy rest

/-- The charge-header scan of `Dftb.read_charges_and_energy`
(dftb.py:331-334).  The Python condition is `('Atom' and 'Net charge' in
line)`: `'Atom'` is a truthy operand of `and`, so only `'Net charge' in
line` is actually tested.  Returns `chargestart = n + 1`. -/
def chargeStart : List PyStr → Nat → Option Nat
  | [], _ => none
  | l :: rest, n =>
    if containsSub (pys ("Net charge")) l then some (n + 1)
    else chargeStart rest (n + 1)

/-- One charge line (dftb.py:340-341): `float(line.split()[-1])`. -/
def parseChargeLine (l : PyStr) : Except PyErr ℚ :=
  match (splitWs l).getLast? with
  | none => .error .indexError
  | some t =>
    match parseFloat t with
    | none => .error (.valueError "could not convert string to float")
    | some q => .ok q

/-- `Dftb.read_charges_and_energy` (dftb.py:317-343) on the lines of
`detailed.out` and `len(self.atoms)`.  Referencing the never-assigned
`energy` at either `return` raises `UnboundLocalError`. -/
def read_charges_and_energy (lines : List PyStr) (natoms : Nat) :
    Except PyErr (Option (List ℚ) × ℚ) := do
  let eOpt ← scanEnergy lines
  match chargeStart lines 0 with
  | none =>
    match eOpt with
    | none => .error (.unboundLocal "energy")
    | some e => .ok (none, e)
  | some cs => do
    let qs ← ((lines.drop cs).take natoms).mapM parseChargeLine
    match eOpt with
    | none => .error (.unboundLocal "energy")
    | some e => .ok (some qs, e)

/-- The marker scan of `Dftb.read_forces` (dftb.py:300-307): first line
containing `'forces   '`, with its index. -/
def forcesFind : List PyStr → Nat → Option (Nat × PyStr)
  | [], _ => none
  | l :: rest, i =>
    if containsSub (pys ("forces   ")) l then some (i, l)
    else forcesFind rest (i + 1)

/-- One force row (dftb.py:311-312): `word = line.split()`, then
`[float(word[k]) for k in range(0, 3)]`; fewer than three tokens or a bad
float is a failure (caught by the bare `except`). -/
def parseForceRow (l : PyStr) : Option (List ℚ) :=
  match splitWs l with
  | a :: b :: c :: _ => do
    let x ← parseFloat a
    let y ← parseFloat b
    let z ← parseFloat c
    some [x, y, z]
  | _ => none

/-- The row loop of `Dftb.read_forces` (dftb.py:309-312): `n` rows starting
at line `idx`. -/
def readForceRows (lines : List PyStr) : Nat → Nat → Option (List (List ℚ))
  | _, 0 => some []
  | idx, n + 1 => do
    let l ← lines.get? idx
    let row ← parseForceRow l
    let rest ← readForceRows lines (idx + 1) n
    some (row :: rest)

/-- `Dftb.read_forces` (dftb.py:295-315).  The row count comes from
`int(line.replace(':', ',').split(',')[-1])`, computed before the
`try`, so a bad integer is an uncaught `ValueError`; everything inside the
`try` (missing marker's unbound `index_force_begin`, missing rows, bad
floats) becomes `RuntimeError('Problem in reading forces')`. -/
def read_forces (lines : List PyStr) : Except PyErr (List (List ℚ)) :=
  match forcesFind lines 0 with
  | none => .error (.runtimeError "Problem in reading forces")
  | some (i, line) =>
    match parseInt (((splitOnChar ',' (replaceChar ':' ',' line)).getLast?).getD []) with
    | none => .error (.valueError "invalid literal for int")
    | some n =>
      match readForceRows lines (i + 1) n.toNat with
      | none => .error (.runtimeError "Problem in reading forces")
      | some rows => .ok (rows.map (fun r => r.map (fun x => x * (Hartree / Bohr))))

/-- `self.lines[i]` with `IndexError` on overflow. -/
def getLine (lines : List PyStr) (i : Nat) : Except PyErr PyStr :=
  match lines.get? i with
  | some l => .ok l
  | none => .error .indexError

/-- One stress row (dftb.py:276): `[float(x) for x in self.lines[i].split()]`. -/
def parseRow (l : PyStr) : Except PyErr (List ℚ) :=
  match (splitWs l).mapM parseFloat with
  | some r => .ok r
  | none => .error (.valueError "could not convert string to float")

/-- The three rows appended for one `'stress'` line at index `i`
(dftb.py:273-277): `start = iline + 1; end = start + 3`. -/
def stressAt (lines : List PyStr) (i : Nat) : Except PyErr (List (List ℚ)) := do
  let l1 ← getLine lines (i + 1)
  let c1 ← parseRow l1
  let l2 ← getLine lines (i + 2)
  let c2 ← parseRow l2
  let l3 ← getLine lines (i + 3)
  let c3 ← parseRow l3
  .ok [c1, c2, c3]

/-- The scan loop of the stress block (dftb.py:270-277): every line
containing `'stress'` contributes three rows; the flag is `have_stress`. -/
def stressGo (all : List PyStr) : List PyStr → Nat →
    Except PyErr (Bool × List (List ℚ))
  | [], _ => .ok (false, [])
  | l :: rest, i =>
    if containsSub (pys ("stress")) l then do
      let rows ← stressAt all i
      let hm ← stressGo all rest (i + 1)
      .ok (true, rows ++ hm.2)
    else stressGo all rest (i + 1)

/-- `np.flat` fancy indexing with `[0, 4, 8, 5, 2, 1]` (dftb.py:280): the
Voigt reordering of the flattened matrix; out-of-range is `IndexError`. -/
def voigtFlat (m : List (List ℚ)) : Option (List ℚ) := do
  let flat := m.flatten
  let a ← flat.get? 0
  let b ← flat.get? 4
  let c ← flat.get? 8
  let d ← flat.get? 5
  let e ← flat.get? 2
  let f ← flat.get? 1
  some [a, b, c, d, e, f]

/-- The stress section of `Dftb.read_results` (dftb.py:266-281): scan for
`'stress'` lines; if any was found, negate, scale by `Hartree / Bohr**3`
and reorder (`np.array` of a ragged row list raises `ValueError`).
`.ok none` means no stress entry is stored. -/
def stressSection (lines : List PyStr) : Except PyErr (Option (List ℚ)) := do
  let hm ← stressGo lines lines 0
  if hm.1 then
    let rows := hm.2
    if rows.all (fun r => r.length = (rows.headD []).length) then
      let scaled := rows.map (fun r => r.map (fun x => -(Hartree / Bohr ^ 3) * x))
      match voigtFlat scaled with
      | none => .error .indexError
      | some v => .ok (some v)
    else .error (.valueError "setting an array element with a sequence")
  else .ok none

/-- The marker scan of `Dftb.read_fermi_levels` (dftb.py:386-392): first
line containing `'fermi_level   '`; returns `index_fermi = iline + 1`. -/
def fermiFind : List PyStr → Nat → Option Nat
  | [], _ => none
  | l :: rest, i =>
    if containsSub (pys ("fermi_level   ")) l then some (i + 1)
    else fermiFind rest (i + 1)

/-- The spin-placeholder threshold `1e-8` of dftb.py:400. -/
def epsFermi : ℚ := 1 / 100000000

/-- `Dftb.read_fermi_levels` (dftb.py:383-406).  Everything inside the
`try` — the missing follower line, `assert len(words) == 2`, and bad
floats — becomes `RuntimeError('Problem in reading Fermi levels')`; values
with `abs(e) > 1e-8` are kept and scaled by `Hartree`. -/
def read_fermi_levels (lines : List PyStr) : Except PyErr (Option (List ℚ)) :=
  match fermiFind lines 0 with
  | none => .ok none
  | some idx =>
    match lines.get? idx with
    | none => .error (.runtimeError "Problem in reading Fermi levels")
    | some l =>
      let words := splitWs l
      if words.length = 2 then
        match words.mapM parseFloat with
        | none => .error (.runtimeError "Problem in reading Fermi levels")
        | some es =>
          .ok (some ((es.filter (fun e => decide (epsFermi < |e|))).map
            (fun e => e * Hartree)))
      else .error (.runtimeError "Problem in reading Fermi levels")

/-- The marker scan of `Dftb.read_eigenvalues` (dftb.py:358-365): first
line containing `'eigenvalues   '`, with its index. -/
def eigFind : List PyStr → Nat → Option (Nat × PyStr)
  | [], _ => none
  | l :: rest, i =>
    if containsSub (pys ("eigenvalues   ")) l then some (i, l)
    else eigFind rest (i + 1)

/-- Floats of line `idx` (dftb.py:376): `map(float, self.lines[index].split())`. -/
def readRowFloats (lines : List PyStr) (idx : Nat) : Option (List ℚ) := do
  let l ← lines.get? idx
  (splitWs l).mapM parseFloat

/-- `rows_per_kpt` consecutive rows concatenated, starting at `start`
(dftb.py:375-377). -/
def eigChunk (lines : List PyStr) : Nat → Nat → Option (List ℚ)
  | _, 0 => some []
  | start, r + 1 => do
    let xs ← readRowFloats lines start
    let ys ← eigChunk lines (start + 1) r
    some (xs ++ ys)

/-- The nested loops of dftb.py:370-378: spin-major reading into
`eigval[j, i]` (result indexed `[kpt][spin][band]`), scaled by `Hartree`.
The broadcast `eigval[j, i] = eigenvalues` needs exactly `nband` values. -/
def eigCollect (lines : List PyStr) (start nspin nkpt rpk nband : Nat) :
    Option (List (List (List ℚ))) := do
  let spinMajor ← (List.range nspin).mapM (fun i =>
    (List.range nkpt).mapM (fun j => do
      let es ← eigChunk lines (start + (i * nkpt + j) * rpk) rpk
      if es.length = nband then some (es.map (fun e => e * Hartree)) else none))
  some ((List.range nkpt).map (fun j =>
    (List.range nspin).map (fun i =>
      (((spinMajor.get? i).getD []).get? j).getD [])))

/-- `Dftb.read_eigenvalues` (dftb.py:353-381).  The four trailing integers
of the marker line are parsed before the `try` (bad values: uncaught
`ValueError`; `ncol = 0` divides by zero).  Failures inside the `try`
become `RuntimeError('Problem in reading eigenvalues')`. -/
def read_eigenvalues (lines : List PyStr) :
    Except PyErr (Option (List (List (List ℚ)))) :=
  match eigFind lines 0 with
  | none => .ok none
  | some (i, line) =>
    let pieces := splitOnChar ',' (replaceChar ':' ',' line)
    let last4 := pieces.drop (pieces.length - 4)
    match last4.mapM parseInt with
    | none => .error (.valueError "invalid literal for int")
    | some vals =>
      match vals with
      | [ncol, nband, nkpt, nspin] =>
        if ncol ≤ 0 then .error (.valueError "division by zero")
        else
          let rpk := (nband.toNat + ncol.toNat - 1) / ncol.toNat
          match eigCollect lines (i + 1) nspin.toNat nkpt.toNat rpk nband.toNat with
          | none => .error (.runtimeError "Problem in reading eigenvalues")
          | some v => .ok (some v)
      | _ => .error (.valueError "not enough values to unpack")

/-- The calculation directory: contents of `results.tag` and
`detailed.out` (`none` = file absent). -/
structure FS where
  resultsTag : Option (List PyStr)
  detailedOut : Option (List PyStr)
deriving DecidableEq

/-- The flat result mapping built by `Dftb.read_results`; a `none` field is
an absent key. -/
structure Results where
  energy : Option ℚ := none
  charges : Option (List ℚ) := none
  forces : Option (List (List ℚ)) := none
  stress : Option (List ℚ) := none
  fermi_levels : Option (List ℚ) := none
  eigenvalues : Option (List (List (List ℚ))) := none
deriving DecidableEq

/-- The empty result mapping. -/
def emptyResults : Results := {}

/-- `Dftb.read_results` (dftb.py:248-293) as a state transition on the
calculation directory.  Returns the raised exception (if any), the result
mapping as mutated so far (`self.results` is updated incrementally, so its
partial contents survive a failure), and the directory state:
`results.tag` is deleted only as the very last step of a fully successful
parse. -/
def readResults (fs : FS) (natoms : Nat) : Option PyErr × Results × FS :=
  match fs.resultsTag with
  | none => (some (.notFound "results.tag"), emptyResults, fs)
  | some lines =>
    match fs.detailedOut with
    | none => (some (.notFound "detailed.out"), emptyResults, fs)
    | some dlines =>
      match read_charges_and_energy dlines natoms with
      | .error e => (some e, emptyResults, fs)
      | .ok ce =>
        let r1 : Results := { charges := ce.1, energy := some ce.2 }
        match read_forces lines with
        | .error e => (some e, r1, fs)
        | .ok fcs =>
          let r2 : Results := { r1 with forces := some fcs }
          match stressSection lines with
          | .error e => (some e, r2, fs)
          | .ok sopt =>
            let r3 : Results := { r2 with stress := sopt }
            match read_fermi_levels lines with
            | .error e => (some e, r3, fs)
            | .ok fopt =>
              let r4 : Results := { r3 with fermi_levels := fopt }
              match read_eigenvalues lines with
              | .error e => (some e, r4, fs)
              | .ok eopt =>
                let r5 : Results := { r4 with eigenvalues := eopt }
                (none, r5, { fs with resultsTag := none })

/-- Indexing past a prefix of known length. -/
theorem get?_append_len {α : Type} (xs ys : List α) (n : Nat) :
    (xs ++ ys).get? (xs.length + n) = ys.get? n := by
  induction xs with
  | nil => simp
  | cons x xs ih => simpa [Nat.succ_add] using ih

/-- Unfolding equation of `splitOnChar` on a cons. -/
theorem splitOnChar_cons (sep c : Char) (s : PyStr) :
    splitOnChar sep (c :: s) =
      if c = sep then [] :: splitOnChar sep s
      else
        match splitOnChar sep s with
        | [] => [[c]]
        | w :: ws => (c :: w) :: ws := rfl

/-- `str.split(sep)` always yields at least one piece. -/
theorem splitOnChar_ne_nil (sep : Char) (s : PyStr) : splitOnChar sep s ≠ [] := by
  induction s with
  | nil => simp [splitOnChar]
  | cons c s ih =>
    rw [splitOnChar_cons]
    split
    · simp
    · cases h : splitOnChar sep s with
      | nil => simp
      | cons w ws => simp

/-- `str.split(sep)` yields one more piece than there are separators. -/
theorem splitOnChar_length (sep : Char) (s : PyStr) :
    (splitOnChar sep s).length = s.count sep + 1 := by
  induction s with
  | nil => simp [splitOnChar]
  | cons c s ih =>
    rw [splitOnChar_cons]
    by_cases h : c = sep
    · simp only [if_pos h, List.length_cons, ih, List.count_cons]
      simp [h]
    · cases hs : splitOnChar sep s with
      | nil => exact absurd hs (splitOnChar_ne_nil sep s)
      | cons w ws =>
        simp only [if_neg h]
        rw [hs] at ih
        simp only [List.length_cons] at ih ⊢
        rw [List.count_cons]
        simp [h, Ne.symm h]
        omega

/-- C1, amended: the nesting depth used for indentation and block closing is
the count of `'_'` characters remaining after stripping trailing
underscores, i.e. one less than the number of underscore-separated segments
of the stripped key (`'Hamiltonian_SCC'` has depth 1, `'Hamiltonian_'`
depth 0). -/
theorem c1_depth_amended (key : PyStr) :
    specSegmentCount key = currentDepth key + 1 := by
  unfold specSegmentCount currentDepth
  exact splitOnChar_length '_' (rstripU key)

/-- C1, counterexample to the claim as stated: `'Hamiltonian_SCC'` has two
underscore-separated segments, but the renderer indents it by `3 * 1`
spaces (depth 1, chunk 4 of the document), not `3 * 2`. -/
theorem c1_counterexample :
    currentDepth (pys ("Hamiltonian_SCC")) = 1 ∧
    specSegmentCount (pys ("Hamiltonian_SCC")) = 2 ∧
    (write_dftb_in [(pys ("Hamiltonian_SCC"), pys ("YES"))] none).map
      (fun d => d.get? 4) = some (some (spaces (3 * 1))) ∧
    (1 : Nat) ≠ 2 := by decide

/-- C3: evaluation of `Dftb.read_charges_and_energy` at a detail file whose
header line contains `'Net charge'` but not `'Atom'`: the code still starts
the charges section there (the Python condition `('Atom' and 'Net charge'
in line)` only tests `'Net charge' in line`), so the claimed
both-substrings requirement is not what the code implements. -/
theorem c3_eval :
    read_charges_and_energy
      [pys ("Total energy: -1.0 H"), pys (" Net charge summary"), pys ("0.5")] 1
      = .ok (some [1 / 2], -1 * Hartree) ∧
    containsSub (pys ("Atom")) (pys (" Net charge summary")) = false ∧
    containsSub (pys ("Net charge")) (pys (" Net charge summary")) = true := by
  refine ⟨by with_unfolding_all rfl, by decide, by decide⟩

/-- C8: evaluation at a species-capability file with no positive occupation:
`read_max_angular_momentum` returns `None`, and the caller's `'spdf'[l]`
then raises a plain `TypeError` that names neither the species nor the
file path — not the claimed `MissingAngularMomentumData` error. -/
theorem c8_eval :
    read_max_angular_momentum
      [pys ("1.0 0.3 10"),
       pys ("0.0, 0.0, 0.0, 0.0, 0.0, 0.0, 0.0, 0.0, 0.0, 0.0")] = .ok none ∧
    angularDefault
      [pys ("1.0 0.3 10"),
       pys ("0.0, 0.0, 0.0, 0.0, 0.0, 0.0, 0.0, 0.0, 0.0, 0.0")]
      = .error (.typeError "string indices must be integers, not NoneType") := by
  refine ⟨by with_unfolding_all rfl, by with_unfolding_all rfl⟩

/-- C6, counterexample to the claim's example: for a simple-format file
whose occupation tokens at the read offset are `2.0 2.0 0.0 0.0`, the
returned angular-momentum index is 2 (the first scanned token is positive
and corresponds to the highest index), not 1. -/
theorem c6_counterexample :
    read_max_angular_momentum
      [pys ("1.0 0.3 10"),
       pys ("0.0 0.0 0.0 0.0 0.0 0.0 0.0 2.0 2.0 0.0 0.0")] = .ok (some 2) ∧
    (Except.ok (some 2) : Except PyErr (Option Nat)) ≠ .ok (some 1) := by
  refine ⟨by with_unfolding_all rfl, by decide⟩

/-- C5, counterexample to the claim's one-token case: a `'fermi_level   '`
marker followed by a single-token line makes `assert len(words) == 2` fail,
so the parser raises `RuntimeError` instead of succeeding with the scaled
value. -/
theorem c5_counterexample :
    read_fermi_levels [pys ("fermi_level   :"), pys ("-0.1234")]
      = .error (.runtimeError "Problem in reading Fermi levels") ∧
    (Except.error (PyErr.runtimeError "Problem in reading Fermi levels") :
      Except PyErr (Option (List ℚ)))
      ≠ .ok (some [(-617 / 5000) * Hartree]) := by
  refine ⟨by with_unfolding_all rfl, by decide⟩

/-- C2, counterexample to the claim as stated: for the parameter mapping
`{'A_B': 'x'}` the rendered document has 3 block-opening braces but 4
closing braces — the final closing loop emits one `'}'` for the depth-1
key even though no block was opened for it. -/
theorem c2_counterexample :
    (write_dftb_in [(pys ("A_B"), pys ("x"))] none).map
      (fun d => (countCharIn lbraceC d, countCharIn rbraceC d)) = some (3, 4) ∧
    (3 : Nat) ≠ 4 := by
  refine ⟨by with_unfolding_all rfl, by decide⟩

/-- C9, counterexample to the claim as stated: a detail file with no
`'Total energy:'` line but a malformed charge row raises the charge row's
`ValueError` (from `float`) before the unbound `energy` is ever
referenced, so not every such file raises `UnboundLocalError`. -/
theorem c9_counterexample :
    read_charges_and_energy [pys ("Atom Net charge"), pys ("abc")] 1
      = .error (.valueError "could not convert string to float") ∧
    (Except.error (PyErr.valueError "could not convert string to float") :
      Except PyErr (Option (List ℚ) × ℚ)) ≠ .error (.unboundLocal "energy") ∧
    (pys ("Total energy:")).isPrefixOf (pyStrip (pys ("Atom Net charge"))) = false ∧
    (pys ("Total energy:")).isPrefixOf (pyStrip (pys ("abc"))) = false := by
  refine ⟨by with_unfolding_all rfl, by decide, by decide, by decide⟩
/-- Helper: the energy scan leaves `energy` unassigned when no line
qualifies. -/
theorem scanEnergy_of_none (lines : List PyStr)
    (h : ∀ l ∈ lines, (pys ("Total energy:")).isPrefixOf (pyStrip l) = false) :
    scanEnergy lines = .ok none := by
  induction lines with
  | nil => rfl
  | cons l rest ih =>
    have hl := h l (by simp)
    simp only [scanEnergy, hl, Bool.false_eq_true, if_false]
    exact ih (fun x hx => h x (by simp [hx]))

/-- Bind of a successful `Except` computation. -/
theorem ebind_ok {α β : Type} (a : α) (f : α → Except PyErr β) :
    Bind.bind (Except.ok a) f = f a := rfl

/-- Bind of a failed `Except` computation. -/
theorem ebind_err {α β : Type} (e : PyErr) (f : α → Except PyErr β) :
    Bind.bind (Except.error e) f = Except.error e := rfl

/-- C9, amended: when the detail file has no `'Total energy:'` line, any
call that gets past the charge section (no charge header, or charge rows
that parse) raises `UnboundLocalError` for `energy`; a malformed charge
row may instead raise its own error first.  Every successful call
presupposes that an energy line exists. -/
theorem c9_unbound_amended :
    (∀ lines natoms,
      (∀ l ∈ lines, (pys ("Total energy:")).isPrefixOf (pyStrip l) = false) →
      chargeStart lines 0 = none →
      read_charges_and_energy lines natoms = .error (.unboundLocal "energy")) ∧
    (∀ lines natoms cs qs,
      (∀ l ∈ lines, (pys ("Total energy:")).isPrefixOf (pyStrip l) = false) →
      chargeStart lines 0 = some cs →
      ((lines.drop cs).take natoms).mapM parseChargeLine = .ok qs →
      read_charges_and_energy lines natoms = .error (.unboundLocal "energy")) ∧
    (∀ lines natoms r,
      read_charges_and_energy lines natoms = .ok r →
      ∃ l, l ∈ lines ∧ (pys ("Total energy:")).isPrefixOf (pyStrip l) = true) := by
  refine ⟨?_, ?_, ?_⟩
  · intro lines natoms h hcs
    unfold read_charges_and_energy
    rw [scanEnergy_of_none lines h, ebind_ok, hcs]
  · intro lines natoms cs qs h hcs hqs
    unfold read_charges_and_energy
    rw [scanEnergy_of_none lines h, ebind_ok]
    simp only [hcs, hqs, ebind_ok]
  · intro lines natoms r hok
    by_contra hno
    push_neg at hno
    have h : ∀ l ∈ lines, (pys ("Total energy:")).isPrefixOf (pyStrip l) = false := by
      intro l hl
      cases hb : (pys ("Total energy:")).isPrefixOf (pyStrip l) with
      | false => rfl
      | true => exact absurd hb (hno l hl)
    unfold read_charges_and_energy at hok
    rw [scanEnergy_of_none lines h, ebind_ok] at hok
    split at hok
    · simp at hok
    · rename_i cs heq
      cases hm : mapM parseChargeLine (List.take natoms (List.drop cs lines)) with
      | error e => rw [hm] at hok; simp [ebind_err] at hok
      | ok qs => rw [hm] at hok; simp [ebind_ok] at hok

/-- C9 witness: a one-line detail file with no energy line raises the
unbound-variable error. -/
theorem c9_witness :
    read_charges_and_energy [pys ("no energy here")] 0
      = .error (.unboundLocal "energy") :=
  c9_unbound_amended.1 [pys ("no energy here")] 0 (by decide) (by decide)

/-- C10: the read-back is not atomic.  If the charges-and-energy step
succeeds but the force parser fails, `read_results` stops with that error
while the result mapping already holds the energy (and charges when
present), no later entries were stored, and `results.tag` is still on
disk. -/
theorem c10_partial (tlines dlines : List PyStr) (natoms : Nat)
    (copt : Option (List ℚ)) (e : ℚ) (err : PyErr)
    (hce : read_charges_and_energy dlines natoms = .ok (copt, e))
    (hf : read_forces tlines = .error err) :
    readResults ⟨some tlines, some dlines⟩ natoms =
      (some err,
       { energy := some e, charges := copt },
       ⟨some tlines, some dlines⟩) := by
  simp [readResults, hce, hf]

/-- C10 witness: a malformed force row aborts the parse after the energy
was stored, and the results file survives. -/
theorem c10_witness :
    readResults ⟨some [pys ("forces   :real:2:3,1"), pys ("x y z")],
                 some [pys ("Total energy: -2.5 H")]⟩ 1 =
      (some (.runtimeError "Problem in reading forces"),
       { energy := some ((-5 / 2) * Hartree), charges := none },
       ⟨some [pys ("forces   :real:2:3,1"), pys ("x y z")],
        some [pys ("Total energy: -2.5 H")]⟩) :=
  c10_partial _ _ 1 none ((-5 / 2) * Hartree) _
    (by with_unfolding_all rfl) (by with_unfolding_all rfl)

/-- C7: a fully successful parse deletes `results.tag`, so the directory
state afterwards has no results file, and a second parse attempt fails
with the file-absent (`NotFound`) error instead of returning stale
results. -/
theorem c7_consume (fs : FS) (natoms : Nat) (res : Results) (fs2 : FS)
    (h : readResults fs natoms = (none, res, fs2)) :
    fs2.resultsTag = none ∧
    readResults fs2 natoms =
      (some (.notFound "results.tag"), emptyResults, fs2) := by
  unfold readResults at h
  split at h
  · simp at h
  · split at h
    · simp at h
    · split at h
      · simp at h
      · split at h
        · simp at h
        · split at h
          · simp at h
          · split at h
            · simp at h
            · split at h
              · simp at h
              · have h3 := congrArg (fun t => t.2.2) h
                simp only at h3
                constructor
                · rw [← h3]
                · rw [← h3]
                  simp [readResults]

/-- C7 witness: a concrete successful parse consumes the results file and
the second attempt reports it missing. -/
theorem c7_witness :
    readResults ⟨some [pys ("forces   :real:2:3,1"), pys ("1.0 2.0 3.0")],
                 some [pys ("Total energy: -2.5 H")]⟩ 1 =
      (none,
       { energy := some ((-5 / 2) * Hartree),
         forces := some [[Hartree / Bohr, 2 * (Hartree / Bohr),
                          3 * (Hartree / Bohr)]] },
       ⟨none, some [pys ("Total energy: -2.5 H")]⟩) ∧
    (FS.mk none (some [pys ("Total energy: -2.5 H")])).resultsTag = none ∧
    readResults ⟨none, some [pys ("Total energy: -2.5 H")]⟩ 1 =
      (some (.notFound "results.tag"), emptyResults,
       ⟨none, some [pys ("Total energy: -2.5 H")]⟩) :=
  ⟨by with_unfolding_all rfl,
   c7_consume
     ⟨some [pys ("forces   :real:2:3,1"), pys ("1.0 2.0 3.0")],
      some [pys ("Total energy: -2.5 H")]⟩ 1
     { energy := some ((-5 / 2) * Hartree),
       forces := some [[Hartree / Bohr, 2 * (Hartree / Bohr),
                        3 * (Hartree / Bohr)]] }
     ⟨none, some [pys ("Total energy: -2.5 H")]⟩
     (by with_unfolding_all rfl)⟩
/-- Helper: a stretch of lines without the `'stress'` marker contributes
nothing to the stress scan. -/
theorem stressGo_clean (all rest : List PyStr) (i : Nat)
    (h : ∀ l ∈ rest, containsSub (pys ("stress")) l = false) :
    stressGo all rest i = .ok (false, []) := by
  induction rest generalizing i with
  | nil => rfl
  | cons l r ih =>
    have hl := h l (by simp)
    simp only [stressGo, hl, Bool.false_eq_true, if_false]
    exact ih (i + 1) (fun x hx => h x (by simp [hx]))

/-- Helper: the stress scan skips a marker-free prefix, advancing the
running index. -/
theorem stressGo_append (all pre rest : List PyStr) (i : Nat)
    (h : ∀ l ∈ pre, containsSub (pys ("stress")) l = false) :
    stressGo all (pre ++ rest) i = stressGo all rest (i + pre.length) := by
  induction pre generalizing i with
  | nil => simp
  | cons l p ih =>
    have hl := h l (by simp)
    simp only [List.cons_append, stressGo, hl, Bool.false_eq_true, if_false,
      List.append_eq]
    rw [ih (i + 1) (fun x hx => h x (by simp [hx]))]
    congr 1
    simp
    omega

/-- Helper: unfolding of the stress scan at a marker line. -/
theorem stressGo_cons_hit (all : List PyStr) (l : PyStr) (rest : List PyStr)
    (i : Nat) (hl : containsSub (pys ("stress")) l = true) :
    stressGo all (l :: rest) i = (do
      let rows ← stressAt all i
      let hm ← stressGo all rest (i + 1)
      Except.ok (true, rows ++ hm.2)) := by
  simp only [stressGo, hl, if_true]

/-- Helper: `self.lines[i]` when the index is in range. -/
theorem getLine_some (lines : List PyStr) (i : Nat) (l : PyStr)
    (h : lines.get? i = some l) : getLine lines i = .ok l := by
  rw [List.get?_eq_getElem?] at h
  simp [getLine, h]

/-- Helper: a stress row whose tokens all parse. -/
theorem parseRow_some (l : PyStr) (r : List Rat)
    (h : (splitWs l).mapM parseFloat = some r) : parseRow l = .ok r := by
  simp only [List.mapM] at h
  simp [parseRow, h]

/-- C4: a results file with one `'stress'` line followed by three 3-float
rows yields the stress entry: the matrix negated, scaled by
`Hartree / Bohr**3`, and reordered by flat indices `[0,4,8,5,2,1]`
(Voigt xx, yy, zz, yz, xz, xy); a file without the marker yields no
stress entry and no error; and the fixed reindexing sends
`[[1,2,3],[4,5,6],[7,8,9]]` to `[1,5,9,6,3,2]`. -/
theorem c4_stress :
    (∀ (pre post : List PyStr) (s r1 r2 r3 : PyStr) (a1 b1 c1 a2 b2 c2 a3 b3 c3 : ℚ),
      (∀ l ∈ pre, containsSub (pys ("stress")) l = false) →
      containsSub (pys ("stress")) s = true →
      (∀ l ∈ r1 :: r2 :: r3 :: post, containsSub (pys ("stress")) l = false) →
      (splitWs r1).mapM parseFloat = some [a1, b1, c1] →
      (splitWs r2).mapM parseFloat = some [a2, b2, c2] →
      (splitWs r3).mapM parseFloat = some [a3, b3, c3] →
      stressSection (pre ++ s :: r1 :: r2 :: r3 :: post) =
        .ok (some ([a1, b2, c3, c2, c1, b1].map
          (fun x => -(Hartree / Bohr ^ 3) * x)))) ∧
    (∀ lines, (∀ l ∈ lines, containsSub (pys ("stress")) l = false) →
      stressSection lines = .ok none) ∧
    voigtFlat [[1, 2, 3], [4, 5, 6], [7, 8, 9]] = some [1, 5, 9, 6, 3, 2] := by
  refine ⟨?_, ?_, by with_unfolding_all rfl⟩
  · intro pre post s r1 r2 r3 a1 b1 c1 a2 b2 c2 a3 b3 c3 hpre hs htail h1 h2 h3
    have hall : stressGo (pre ++ s :: r1 :: r2 :: r3 :: post)
        (pre ++ s :: r1 :: r2 :: r3 :: post) 0 =
        .ok (true, [[a1, b1, c1], [a2, b2, c2], [a3, b3, c3]]) := by
      rw [stressGo_append _ pre _ 0 hpre]
      rw [stressGo_cons_hit _ _ _ _ hs]
      have hg1 : (pre ++ s :: r1 :: r2 :: r3 :: post).get? (0 + pre.length + 1) = some r1 := by
        have := get?_append_len pre (s :: r1 :: r2 :: r3 :: post) 1
        simpa [Nat.add_comm] using this
      have hg2 : (pre ++ s :: r1 :: r2 :: r3 :: post).get? (0 + pre.length + 2) = some r2 := by
        have := get?_append_len pre (s :: r1 :: r2 :: r3 :: post) 2
        simpa [Nat.add_comm] using this
      have hg3 : (pre ++ s :: r1 :: r2 :: r3 :: post).get? (0 + pre.length + 3) = some r3 := by
        have := get?_append_len pre (s :: r1 :: r2 :: r3 :: post) 3
        simpa [Nat.add_comm] using this
      simp only [stressAt]
      rw [getLine_some _ _ _ hg1, ebind_ok, parseRow_some _ _ h1, ebind_ok]
      rw [show 0 + pre.length + 1 + 1 = 0 + pre.length + 2 from by omega]
      rw [getLine_some _ _ _ hg2, ebind_ok, parseRow_some _ _ h2, ebind_ok]
      rw [show 0 + pre.length + 1 + 2 = 0 + pre.length + 3 from by omega]
      rw [getLine_some _ _ _ hg3, ebind_ok, parseRow_some _ _ h3, ebind_ok]
      rw [ebind_ok]
      rw [stressGo_clean _ _ _ htail, ebind_ok]
      simp
    unfold stressSection
    rw [hall, ebind_ok]
    rfl
  · intro lines h
    unfold stressSection
    rw [stressGo_clean lines lines 0 h, ebind_ok]
    simp

/-- C4 witness: a concrete one-block stress file. -/
theorem c4_witness :
    stressSection [pys ("stress"), pys ("1.0 2.0 3.0"), pys ("4.0 5.0 6.0"),
                   pys ("7.0 8.0 9.0")] =
      .ok (some ([1, 5, 9, 6, 3, 2].map (fun x => -(Hartree / Bohr ^ 3) * x))) := by
  have h := c4_stress.1 [] [] (pys ("stress")) (pys ("1.0 2.0 3.0"))
    (pys ("4.0 5.0 6.0")) (pys ("7.0 8.0 9.0")) 1 2 3 4 5 6 7 8 9
    (by simp) (by decide) (by decide)
    (by with_unfolding_all rfl) (by with_unfolding_all rfl)
    (by with_unfolding_all rfl)
  simpa using h
/-- Helper: `mapM` over `Option` preserves length. -/
theorem mapM_opt_length {α β : Type} (f : α → Option β) (xs : List α)
    (ys : List β) (h : xs.mapM f = some ys) : xs.length = ys.length := by
  induction xs generalizing ys with
  | nil =>
    rw [List.mapM_nil] at h
    simp at h
    simp [h]
  | cons x xs ih =>
    rw [List.mapM_cons] at h
    cases hx : f x with
    | none => rw [hx] at h; simp at h
    | some y =>
      rw [hx] at h
      cases hxs : xs.mapM f with
      | none => rw [hxs] at h; simp at h
      | some ys2 =>
        rw [hxs] at h
        simp at h
        subst h
        simp [ih ys2 hxs]

/-- Helper: the fermi-marker scan skips a marker-free prefix. -/
theorem fermiFind_skip (pre rest : List PyStr) (i : Nat)
    (h : ∀ l ∈ pre, containsSub (pys ("fermi_level   ")) l = false) :
    fermiFind (pre ++ rest) i = fermiFind rest (i + pre.length) := by
  induction pre generalizing i with
  | nil => simp
  | cons l p ih =>
    have hl := h l (by simp)
    simp only [List.cons_append, fermiFind, hl, Bool.false_eq_true, if_false,
      List.append_eq]
    rw [ih (i + 1) (fun x hx => h x (by simp [hx]))]
    congr 1
    simp
    omega

/-- C5, amended: the fermi parser keys on a line containing
`'fermi_level   '` (the marker with its trailing spaces); the follower
line must hold exactly two whitespace-separated numeric tokens, in which
case the values of magnitude above `1e-8` are kept and scaled by
`Hartree`; a one-token follower makes the `assert len(words) == 2` fail,
raising `RuntimeError('Problem in reading Fermi levels')` instead of
succeeding. -/
theorem c5_fermi_amended :
    (∀ (pre post : List PyStr) (f next : PyStr) (e1 e2 : ℚ),
      (∀ l ∈ pre, containsSub (pys ("fermi_level   ")) l = false) →
      containsSub (pys ("fermi_level   ")) f = true →
      (splitWs next).mapM parseFloat = some [e1, e2] →
      read_fermi_levels (pre ++ f :: next :: post) =
        .ok (some (([e1, e2].filter (fun e => decide (epsFermi < |e|))).map
          (fun e => e * Hartree)))) ∧
    (∀ (pre post : List PyStr) (f next : PyStr),
      (∀ l ∈ pre, containsSub (pys ("fermi_level   ")) l = false) →
      containsSub (pys ("fermi_level   ")) f = true →
      (splitWs next).length = 1 →
      read_fermi_levels (pre ++ f :: next :: post) =
        .error (.runtimeError "Problem in reading Fermi levels")) := by
  constructor
  · intro pre post f next e1 e2 hpre hf hparse
    unfold read_fermi_levels
    rw [fermiFind_skip pre _ 0 hpre]
    simp only [fermiFind, hf, if_true]
    have hg : (pre ++ f :: next :: post).get? (pre.length + 1) = some next :=
      get?_append_len pre (f :: next :: post) 1
    have hlen : (splitWs next).length = 2 := by
      simpa using mapM_opt_length parseFloat (splitWs next) [e1, e2] hparse
    rw [show 0 + pre.length + 1 = pre.length + 1 from by omega, hg]
    simp only [hlen, if_true]
    rw [hparse]
  · intro pre post f next hpre hf hlen
    unfold read_fermi_levels
    rw [fermiFind_skip pre _ 0 hpre]
    simp only [fermiFind, hf, if_true]
    have hg : (pre ++ f :: next :: post).get? (pre.length + 1) = some next :=
      get?_append_len pre (f :: next :: post) 1
    rw [show 0 + pre.length + 1 = pre.length + 1 from by omega, hg]
    simp [hlen]

/-- C5 witness: the spec's two-token example retains only `-0.1234`
scaled. -/
theorem c5_witness :
    read_fermi_levels [pys ("fermi_level   :"),
                       pys ("0.000000000000000E+000  -0.1234")] =
      .ok (some [(-617 / 5000) * Hartree]) := by
  have h := c5_fermi_amended.1 [] [] (pys ("fermi_level   :"))
    (pys ("0.000000000000000E+000  -0.1234")) 0 (-617 / 5000)
    (by simp) (by decide) (by with_unfolding_all rfl)
  rw [List.nil_append] at h
  rw [h]
  with_unfolding_all rfl
/-- Helper: the countdown scan of the occupation list returns `some l`
exactly when `l` is the highest angular-momentum index (at most the
starting index) whose occupation is positive. -/
theorem scanDown_eq (occs : List ℚ) (l0 l : Nat) (hlen : occs.length ≤ l0 + 1) :
    scanDown occs l0 = some l ↔
      (l ≤ l0 ∧ l0 - l < occs.length ∧ 0 < occs.getD (l0 - l) 0 ∧
       ∀ j < l0 - l, occs.getD j 0 ≤ 0) := by
  induction occs generalizing l0 with
  | nil =>
    simp only [scanDown, List.length_nil]
    constructor
    · intro h; cases h
    · intro ⟨h1, h2, h3, h4⟩; omega
  | cons f fs ih =>
    by_cases hf : (0 : ℚ) < f
    · simp only [scanDown, hf, if_true]
      constructor
      · intro h
        have hl : l = l0 := by cases h; rfl
        subst hl
        refine ⟨Nat.le_refl l, by simp, ?_, ?_⟩
        · simpa using hf
        · intro j hj; omega
      · intro ⟨h1, h2, h3, h4⟩
        by_cases hll : l = l0
        · rw [hll]
        · exfalso
          have hj0 := h4 0 (by omega)
          simp at hj0
          exact absurd hf (by simpa using not_lt.mpr hj0)
    · simp only [scanDown, hf, if_false]
      cases l0 with
      | zero =>
        have hlenz : fs.length + 1 ≤ 1 := by simpa using hlen
        have hfs : fs = [] := List.eq_nil_of_length_eq_zero (by omega)
        subst hfs
        simp only [scanDown]
        constructor
        · intro h; cases h
        · intro ⟨h1, h2, h3, h4⟩
          have : l = 0 := by omega
          subst this
          simp at h3
          exact absurd h3 hf
      | succ k =>
        have hlen2 : fs.length ≤ k + 1 := by simp at hlen; omega
        rw [show k + 1 - 1 = k from rfl]
        rw [ih k hlen2]
        constructor
        · intro ⟨h1, h2, h3, h4⟩
          have he : k + 1 - l = (k - l) + 1 := by omega
          refine ⟨by omega, by simp; omega, ?_, ?_⟩
          · rw [he, List.getD_cons_succ]
            exact h3
          · intro j hj
            cases j with
            | zero =>
              simpa using not_lt.mp hf
            | succ j2 =>
              rw [List.getD_cons_succ]
              exact h4 j2 (by omega)
        · intro ⟨h1, h2, h3, h4⟩
          have hne : l ≠ k + 1 := by
            intro hk
            subst hk
            simp at h3
            exact absurd h3 hf
          have hle : l ≤ k := by omega
          have he : k + 1 - l = (k - l) + 1 := by omega
          rw [he, List.getD_cons_succ] at h3
          refine ⟨hle, by simp at h2; omega, h3, ?_⟩
          intro j hj
          have := h4 (j + 1) (by omega)
          rw [List.getD_cons_succ] at this
          exact this

/-- C6, amended: the reader scans the parsed occupation window downward
from angular-momentum index 2 for a simple-format capability file (first
character not `'@'`, window at token offset 7) and from index 3 for an
extended-format file (first character `'@'`, one extra line skipped,
window at token offset 9), returning exactly the highest index with
positive occupation in either case (token order runs from highest to
lowest angular momentum). -/
theorem c6_maxang_amended :
    (∀ (fileLines : List PyStr) (c : Char) (cs : PyStr) (occs : List ℚ) (l : Nat),
      fileLines.get? 0 = some (c :: cs) →
      ¬ c = '@' →
      (((splitWs (replaceChar ',' ' ' ((fileLines.get? 1).getD []))).drop 7).take 3).mapM
          parseFloat = some occs →
      (read_max_angular_momentum fileLines = .ok (some l) ↔
        (l ≤ 2 ∧ 2 - l < occs.length ∧ 0 < occs.getD (2 - l) 0 ∧
         ∀ j < 2 - l, occs.getD j 0 ≤ 0))) ∧
    (∀ (fileLines : List PyStr) (cs : PyStr) (occs : List ℚ) (l : Nat),
      fileLines.get? 0 = some ('@' :: cs) →
      (((splitWs (replaceChar ',' ' ' ((fileLines.get? 2).getD []))).drop 9).take 4).mapM
          parseFloat = some occs →
      (read_max_angular_momentum fileLines = .ok (some l) ↔
        (l ≤ 3 ∧ 3 - l < occs.length ∧ 0 < occs.getD (3 - l) 0 ∧
         ∀ j < 3 - l, occs.getD j 0 ≤ 0))) := by
  constructor
  · intro fileLines c cs occs l h0 hc hparse
    have hlen : occs.length ≤ 3 := by
      have := mapM_opt_length parseFloat _ occs hparse
      rw [← this]
      exact List.length_take_le 3 _
    unfold read_max_angular_momentum
    rw [h0]
    simp only [Option.getD_some, hc, if_false]
    rw [hparse]
    simp only [Except.ok.injEq]
    exact scanDown_eq occs 2 l hlen
  · intro fileLines cs occs l h0 hparse
    have hlen : occs.length ≤ 4 := by
      have := mapM_opt_length parseFloat _ occs hparse
      rw [← this]
      exact List.length_take_le 4 _
    unfold read_max_angular_momentum
    rw [h0]
    simp only [Option.getD_some, eq_self_iff_true, if_true]
    rw [hparse]
    simp only [Except.ok.injEq]
    exact scanDown_eq occs 3 l hlen

/-- C6 witness: a simple-format oxygen-like occupation window `0.0 4.0 2.0`
gives index 1, and an extended-format window `0.0 2.0 4.0 2.0` at offset 9
gives index 2. -/
theorem c6_witness :
    read_max_angular_momentum
      [pys ("1.0 0.3 10"),
       pys ("0.0 0.0 0.0 0.0 0.0 0.0 0.0 0.0 4.0 2.0")] = .ok (some 1) ∧
    read_max_angular_momentum
      [pys ("@extended 3"),
       pys ("skipped line"),
       pys ("0 0 0 0 0 0 0 0 0 0.0 2.0 4.0 2.0")] = .ok (some 2) := by
  constructor
  · have h := c6_maxang_amended.1
      [pys ("1.0 0.3 10"), pys ("0.0 0.0 0.0 0.0 0.0 0.0 0.0 0.0 4.0 2.0")]
      '1' (pys (".0 0.3 10")) [0, 4, 2] 1
      (by decide) (by decide) (by with_unfolding_all rfl)
    refine h.mpr ⟨by omega, by simp, by norm_num, ?_⟩
    intro j hj
    have hj0 : j = 0 := by omega
    subst hj0
    norm_num
  · have h := c6_maxang_amended.2
      [pys ("@extended 3"), pys ("skipped line"),
       pys ("0 0 0 0 0 0 0 0 0 0.0 2.0 4.0 2.0")]
      (pys ("extended 3")) [0, 2, 4, 2] 2
      (by decide) (by with_unfolding_all rfl)
    refine h.mpr ⟨by omega, by simp, by norm_num, ?_⟩
    intro j hj
    have hj0 : j = 0 := by omega
    subst hj0
    norm_num

/-- Helper: character counts add over document concatenation. -/
theorem countCharIn_append (c : Char) (xs ys : List PyStr) :
    countCharIn c (xs ++ ys) = countCharIn c xs + countCharIn c ys := by
  simp [countCharIn]

/-- Helper: character count of a document cons. -/
theorem countCharIn_cons (c : Char) (x : PyStr) (xs : List PyStr) :
    countCharIn c (x :: xs) = x.count c + countCharIn c xs := by
  simp [countCharIn]

/-- Helper: the last segment has no more occurrences of a character than
the whole key. -/
theorem count_lastSeg_le (c : Char) (s : PyStr) :
    (lastSeg s).count c ≤ s.count c := by
  unfold lastSeg
  rw [List.count_reverse]
  calc (s.reverse.takeWhile (fun x => x ≠ '_')).count c
      ≤ s.reverse.count c := (List.takeWhile_sublist _).count_le c
    _ = s.count c := List.count_reverse c s

/-- Helper: stripping trailing underscores cannot increase a character
count. -/
theorem count_rstripU_le (c : Char) (s : PyStr) :
    (rstripU s).count c ≤ s.count c := by
  unfold rstripU
  rw [List.count_reverse]
  calc (s.reverse.dropWhile (fun x => x = '_')).count c
      ≤ s.reverse.count c := (List.dropWhile_sublist _).count_le c
    _ = s.count c := List.count_reverse c s

/-- Helper: an indentation run contains no non-space character. -/
theorem count_spaces (c : Char) (n : Nat) (h : ¬ c = ' ') :
    (spaces n).count c = 0 := by
  unfold spaces
  rw [List.count_replicate]
  simp [h]
  intro hc
  exact absurd hc.symm h

/-- Helper: inter-key closing chunks contain no opening brace. -/
theorem closeChunks_count_l (n : Nat) :
    countCharIn lbraceC (closeChunks n) = 0 := by
  induction n with
  | zero => rfl
  | succ b ih =>
    rw [closeChunks, countCharIn_cons, ih, List.count_append,
      count_spaces _ _ (by decide)]
    have : (pys ("\x7d \n")).count lbraceC = 0 := by with_unfolding_all rfl
    omega

/-- Helper: `n` inter-key closing chunks contain exactly `n` closing
braces. -/
theorem closeChunks_count_r (n : Nat) :
    countCharIn rbraceC (closeChunks n) = n := by
  induction n with
  | zero => rfl
  | succ b ih =>
    rw [closeChunks, countCharIn_cons, ih, List.count_append,
      count_spaces _ _ (by decide)]
    have : (pys ("\x7d \n")).count rbraceC = 1 := by with_unfolding_all rfl
    omega

/-- Helper: the trailing closing chunks contain no opening brace. -/
theorem finalCloses_count_l (n : Nat) :
    countCharIn lbraceC (finalCloses n) = 0 := by
  induction n with
  | zero => rfl
  | succ b ih =>
    rw [finalCloses, countCharIn_cons, ih, List.count_append,
      count_spaces _ _ (by decide)]
    have : (pys ("\x7d \n")).count lbraceC = 0 := by with_unfolding_all rfl
    omega

/-- Helper: the trailing closing chunks contain one closing brace per
level. -/
theorem finalCloses_count_r (n : Nat) :
    countCharIn rbraceC (finalCloses n) = n := by
  induction n with
  | zero => rfl
  | succ b ih =>
    rw [finalCloses, countCharIn_cons, ih, List.count_append,
      count_spaces _ _ (by decide)]
    have : (pys ("\x7d \n")).count rbraceC = 1 := by with_unfolding_all rfl
    omega

/-- Helper: a key's body chunk opens one brace exactly for block-opener
keys, given brace-free key and value. -/
theorem bodyChunk_count_l (key value : PyStr)
    (hk : key.count lbraceC = 0) (hv : value.count lbraceC = 0) :
    (bodyChunk key value).count lbraceC =
      if endsWithU key then 1 else 0 := by
  have hlast : (lastSeg key).count lbraceC = 0 :=
    Nat.le_zero.mp (hk ▸ count_lastSeg_le lbraceC key)
  have hlastr : (lastSeg (rstripU key)).count lbraceC = 0 := by
    have h2 := count_rstripU_le lbraceC key
    have h3 := count_lastSeg_le lbraceC (rstripU key)
    omega
  have heq : (pys (" = ")).count lbraceC = 0 := by with_unfolding_all rfl
  have hob : (pys ("\x7b \n")).count lbraceC = 1 := by with_unfolding_all rfl
  have hnl : (pys (" \n")).count lbraceC = 0 := by with_unfolding_all rfl
  unfold bodyChunk
  cases h1 : endsWithU key with
  | true => simp [h1, List.count_append, hlastr, heq, hob, hv]
  | false =>
    by_cases h2 : countOcc (pys ("_empty")) key = 1
    · simp [h1, h2, List.count_append, hv, hnl]
    · simp [h1, h2, List.count_append, hlast, heq, hv, hnl]

/-- Helper: a key's body chunk closes no brace, given brace-free key and
value. -/
theorem bodyChunk_count_r (key value : PyStr)
    (hk : key.count rbraceC = 0) (hv : value.count rbraceC = 0) :
    (bodyChunk key value).count rbraceC = 0 := by
  have hlast : (lastSeg key).count rbraceC = 0 :=
    Nat.le_zero.mp (hk ▸ count_lastSeg_le rbraceC key)
  have hlastr : (lastSeg (rstripU key)).count rbraceC = 0 := by
    have h2 := count_rstripU_le rbraceC key
    have h3 := count_lastSeg_le rbraceC (rstripU key)
    omega
  have heq : (pys (" = ")).count rbraceC = 0 := by with_unfolding_all rfl
  have hob : (pys ("\x7b \n")).count rbraceC = 0 := by with_unfolding_all rfl
  have hnl : (pys (" \n")).count rbraceC = 0 := by with_unfolding_all rfl
  unfold bodyChunk
  cases h1 : endsWithU key with
  | true => simp [h1, List.count_append, hlastr, heq, hob, hv]
  | false =>
    by_cases h2 : countOcc (pys ("_empty")) key = 1
    · simp [h1, h2, List.count_append, hv, hnl]
    · simp [h1, h2, List.count_append, hlast, heq, hv, hnl]

/-- Helper: opener count of a cons. -/
theorem numOpeners_cons (k v : PyStr) (rest : List (PyStr × PyStr)) :
    numOpeners ((k, v) :: rest) =
      (if endsWithU k then 1 else 0) + numOpeners rest := by
  unfold numOpeners
  rw [List.filter_cons]
  cases h : endsWithU k with
  | true => simp [h]; omega
  | false => simp [h]

/-- Helper: the empty document has no characters. -/
theorem countCharIn_nil (c : Char) : countCharIn c [] = 0 := rfl

/-- Helper: without a point-charge potential, the main loop opens exactly
one brace per key ending in underscore. -/
theorem mainChunks_count_l (ps : List (PyStr × PyStr)) (prev : Nat)
    (h : ∀ p ∈ ps, p.1.count lbraceC = 0 ∧ p.2.count lbraceC = 0) :
    countCharIn lbraceC (mainChunks none prev ps) = numOpeners ps := by
  induction ps generalizing prev with
  | nil => rfl
  | cons p rest ih =>
    obtain ⟨k, v⟩ := p
    have hp := h (k, v) (by simp)
    rw [mainChunks]
    simp only [Option.isSome_none, Bool.false_and, Bool.false_eq_true,
      if_false]
    rw [countCharIn_append, countCharIn_append, closeChunks_count_l, countCharIn_cons,
      countCharIn_cons, countCharIn_nil, count_spaces _ _ (by decide),
      bodyChunk_count_l k v hp.1 hp.2,
      ih (currentDepth k) (fun q hq => h q (by simp [hq])),
      numOpeners_cons]
    omega

/-- Helper: without a point-charge potential, the main loop closes one
brace per unit of depth drop between consecutive keys. -/
theorem mainChunks_count_r (ps : List (PyStr × PyStr)) (prev : Nat)
    (h : ∀ p ∈ ps, p.1.count rbraceC = 0 ∧ p.2.count rbraceC = 0) :
    countCharIn rbraceC (mainChunks none prev ps) = depthCloses prev ps := by
  induction ps generalizing prev with
  | nil => rfl
  | cons p rest ih =>
    obtain ⟨k, v⟩ := p
    have hp := h (k, v) (by simp)
    rw [mainChunks]
    simp only [Option.isSome_none, Bool.false_and, Bool.false_eq_true,
      if_false]
    rw [countCharIn_append, countCharIn_append, closeChunks_count_r, countCharIn_cons,
      countCharIn_cons, countCharIn_nil, count_spaces _ _ (by decide),
      bodyChunk_count_r k v hp.1 hp.2,
      ih (currentDepth k) (fun q hq => h q (by simp [hq]))]
    rw [depthCloses]
    omega

/-- Helper: telescoping identity between total depth drops, last depth and
total depth rises. -/
theorem depthCloses_add_lastDepth (ps : List (PyStr × PyStr)) (prev : Nat) :
    depthCloses prev ps + lastDepth prev ps = depthRises prev ps + prev := by
  induction ps generalizing prev with
  | nil => simp [depthCloses, lastDepth, depthRises]
  | cons p rest ih =>
    obtain ⟨k, v⟩ := p
    rw [depthCloses, lastDepth, depthRises]
    have := ih (currentDepth k)
    omega

/-- Helper: the running last depth is the depth of the last key. -/
theorem lastDepth_of_getLast (ps : List (PyStr × PyStr)) (kv : PyStr × PyStr)
    (h : ps.getLast? = some kv) (prev : Nat) :
    lastDepth prev ps = currentDepth kv.1 := by
  induction ps generalizing prev with
  | nil => simp at h
  | cons p rest ih =>
    cases rest with
    | nil =>
      simp at h
      subst h
      rfl
    | cons q rest2 =>
      rw [List.getLast?_cons_cons] at h
      rw [lastDepth]
      exact ih h (currentDepth p.1)

/-- C2, amended: for brace-free keys and values, the rendered document has
balanced braces exactly when the number of block-opener keys (ending in
`'_'`) equals the total depth increase along the sorted key sequence
starting from depth 0.  For arbitrary key sets this can fail (see the
counterexample), because closing lines follow depth arithmetic while
opening lines follow the key-suffix convention. -/
theorem c2_balance_amended (params : List (PyStr × PyStr)) (doc : List PyStr)
    (hdoc : write_dftb_in params none = some doc)
    (hbf : ∀ p ∈ sortPairs params,
      p.1.count lbraceC = 0 ∧ p.1.count rbraceC = 0 ∧
      p.2.count lbraceC = 0 ∧ p.2.count rbraceC = 0) :
    countCharIn lbraceC doc = countCharIn rbraceC doc ↔
      numOpeners (sortPairs params) = depthRises 0 (sortPairs params) := by
  unfold write_dftb_in at hdoc
  simp only [] at hdoc
  cases hlast : (sortPairs params).getLast? with
  | none => rw [hlast] at hdoc; simp at hdoc
  | some kv =>
    rw [hlast] at hdoc
    simp only [Option.some.injEq] at hdoc
    obtain ⟨lk, lv⟩ := kv
    subst hdoc
    have hdz : currentDepth (pys ("dummy_")) = 0 := by with_unfolding_all rfl
    rw [hdz]
    have hL := mainChunks_count_l (sortPairs params) 0
      (fun p hp => ⟨(hbf p hp).1, (hbf p hp).2.2.1⟩)
    have hR := mainChunks_count_r (sortPairs params) 0
      (fun p hp => ⟨(hbf p hp).2.1, (hbf p hp).2.2.2⟩)
    have hhl : countCharIn lbraceC headerChunks = 1 := by with_unfolding_all rfl
    have hhr : countCharIn rbraceC headerChunks = 1 := by with_unfolding_all rfl
    have htl : countCharIn lbraceC trailerChunks = 2 := by with_unfolding_all rfl
    have htr : countCharIn rbraceC trailerChunks = 2 := by with_unfolding_all rfl
    have hlst := lastDepth_of_getLast (sortPairs params) (lk, lv) hlast 0
    have htel := depthCloses_add_lastDepth (sortPairs params) 0
    rw [countCharIn_append, countCharIn_append, countCharIn_append,
      countCharIn_append, countCharIn_append, countCharIn_append,
      hhl, hhr, htl, htr, hL, hR, finalCloses_count_l, finalCloses_count_r]
    have hlst2 : lastDepth 0 (sortPairs params) = currentDepth lk := hlst
    omega

/-- C2 witness: a parameter set whose depth rises are all realised by
block-opener keys renders with balanced braces. -/
theorem c2_witness :
    write_dftb_in [(pys ("A_"), pys ("x")), (pys ("A_B"), pys ("y"))] none =
      some [pys ("Geometry = GenFormat \x7b \n"), pys ("    <<< \"geo_end.gen\" \n"),
            pys ("\x7d \n"), pys (" \n"), pys (""), pys ("A = x\x7b \n"),
            pys ("   "), pys ("B = y \n"), pys ("\x7d \n"), pys ("Options \x7b \n"),
            pys ("   WriteResultsTag = Yes  \n"), pys ("\x7d \n"),
            pys ("ParserOptions \x7b \n"),
            pys ("   IgnoreUnprocessedNodes = Yes  \n"), pys ("\x7d \n")] ∧
    countCharIn lbraceC
      [pys ("Geometry = GenFormat \x7b \n"), pys ("    <<< \"geo_end.gen\" \n"),
       pys ("\x7d \n"), pys (" \n"), pys (""), pys ("A = x\x7b \n"),
       pys ("   "), pys ("B = y \n"), pys ("\x7d \n"), pys ("Options \x7b \n"),
       pys ("   WriteResultsTag = Yes  \n"), pys ("\x7d \n"),
       pys ("ParserOptions \x7b \n"),
       pys ("   IgnoreUnprocessedNodes = Yes  \n"), pys ("\x7d \n")] =
    countCharIn rbraceC
      [pys ("Geometry = GenFormat \x7b \n"), pys ("    <<< \"geo_end.gen\" \n"),
       pys ("\x7d \n"), pys (" \n"), pys (""), pys ("A = x\x7b \n"),
       pys ("   "), pys ("B = y \n"), pys ("\x7d \n"), pys ("Options \x7b \n"),
       pys ("   WriteResultsTag = Yes  \n"), pys ("\x7d \n"),
       pys ("ParserOptions \x7b \n"),
       pys ("   IgnoreUnprocessedNodes = Yes  \n"), pys ("\x7d \n")] := by
  constructor
  · with_unfolding_all rfl
  · refine (c2_balance_amended
      [(pys ("A_"), pys ("x")), (pys ("A_B"), pys ("y"))] _
      (by with_unfolding_all rfl) (by with_unfolding_all decide)).mpr
      (by with_unfolding_all decide)
